import Mathlib

/-!
# Verification of the matching-gateway transport layer

A shallow embedding of `src/server/src/matching/protocol.rs` and
`src/server/src/matching/client.rs`.

Modelling conventions:
* Byte buffers (`bytes::BytesMut`) are `List Nat`, each entry one byte.
* Machine integers are `Nat`; multi-byte fields are big-endian, matching
  `put_u16`/`put_u32`/`put_u64` and `get_u16`/`get_u32`/`get_u64`.
* Rust `String` symbol/text fields are byte lists (`String::from_utf8_lossy`
  is the identity on the ASCII content these fields carry; trailing-NUL
  trimming is modelled explicitly).
* `bytes::Buf` reads (`get_u8`, `get_u64`, `copy_to_slice`, `advance`)
  panic when fewer bytes remain than requested; a read is therefore an
  `Option`-valued function where `none` models a Rust panic, and decoders
  return `DResult` with an explicit `panic` outcome.
* The wall clock (`chrono::Utc::now`) is modelled as an explicit
  parameter (`ts` / `now`), nondeterministic input to the code.
-/

/-- Big-endian value of a byte list, as `get_uXX` composes bytes. -/
def beVal (l : List Nat) : Nat := l.foldl (fun a b => a * 256 + b) 0

/-- The two big-endian bytes written by `put_u16`. -/
def u16Bytes (x : Nat) : List Nat :=
  [x / 2 ^ 8 % 256, x % 256]

/-- The four big-endian bytes written by `put_u32`. -/
def u32Bytes (x : Nat) : List Nat :=
  [x / 2 ^ 24 % 256, x / 2 ^ 16 % 256, x / 2 ^ 8 % 256, x % 256]

/-- The eight big-endian bytes written by `put_u64`. -/
def u64Bytes (x : Nat) : List Nat :=
  [x / 2 ^ 56 % 256, x / 2 ^ 48 % 256, x / 2 ^ 40 % 256, x / 2 ^ 32 % 256,
   x / 2 ^ 24 % 256, x / 2 ^ 16 % 256, x / 2 ^ 8 % 256, x % 256]

/-- Rust `bytes::Buf::get_u8`: consume one byte, panicking (`none`) on empty. -/
def rdU8 : List Nat → Option (Nat × List Nat)
  | [] => none
  | b :: r => some (b, r)

/-- Rust `bytes::Buf::copy_to_slice` into an `n`-byte array: take `n` bytes,
panicking (`none`) when fewer than `n` remain. -/
def rdSlice (n : Nat) (l : List Nat) : Option (List Nat × List Nat) :=
  if n ≤ l.length then some (l.take n, l.drop n) else none

/-- Rust `bytes::Buf::advance n`: drop `n` bytes, panicking when fewer remain. -/
def rdAdvance (n : Nat) (l : List Nat) : Option (List Nat) :=
  if n ≤ l.length then some (l.drop n) else none

/-- Rust `bytes::Buf::get_u16` (big-endian). -/
def rdU16 (l : List Nat) : Option (Nat × List Nat) :=
  (rdSlice 2 l).map fun p => (beVal p.1, p.2)

/-- Rust `bytes::Buf::get_u32` (big-endian). -/
def rdU32 (l : List Nat) : Option (Nat × List Nat) :=
  (rdSlice 4 l).map fun p => (beVal p.1, p.2)

/-- Rust `bytes::Buf::get_u64` (big-endian). -/
def rdU64 (l : List Nat) : Option (Nat × List Nat) :=
  (rdSlice 8 l).map fun p => (beVal p.1, p.2)

/-- Rust `trim_end_matches` of NUL on a byte list. -/
def trimNul (l : List Nat) : List Nat :=
  (l.reverse.dropWhile (· = 0)).reverse

/-- Constant `PROTOCOL_VERSION` from `protocol.rs`. -/
def PROTOCOL_VERSION : Nat := 1

/-- The `MessageType` enum from `protocol.rs`. -/
inductive MessageType where
  | NewOrder | CancelOrder | ReplaceOrder
  | OrderAck | OrderReject | OrderCancelled | OrderReplaced
  | Execution
  | Trade | Quote
  | Heartbeat | Logon | Logout
  deriving DecidableEq, Repr

/-- Numeric wire tags of `MessageType` (`#[repr(u8)]` discriminants). -/
def MessageType.toByte : MessageType → Nat
  | .NewOrder => 0x01
  | .CancelOrder => 0x02
  | .ReplaceOrder => 0x03
  | .OrderAck => 0x10
  | .OrderReject => 0x11
  | .OrderCancelled => 0x12
  | .OrderReplaced => 0x13
  | .Execution => 0x20
  | .Trade => 0x30
  | .Quote => 0x31
  | .Heartbeat => 0xF0
  | .Logon => 0xF1
  | .Logout => 0xF2

/-- Rust `TryFrom<u8> for MessageType`: `none` models the `InvalidData` error. -/
def MessageType.tryFrom (value : Nat) : Option MessageType :=
  match value with
  | 0x01 => some .NewOrder
  | 0x02 => some .CancelOrder
  | 0x03 => some .ReplaceOrder
  | 0x10 => some .OrderAck
  | 0x11 => some .OrderReject
  | 0x12 => some .OrderCancelled
  | 0x13 => some .OrderReplaced
  | 0x20 => some .Execution
  | 0x30 => some .Trade
  | 0x31 => some .Quote
  | 0xF0 => some .Heartbeat
  | 0xF1 => some .Logon
  | 0xF2 => some .Logout
  | _ => none

/-- The `Side` enum (`Buy = 0x01`, `Sell = 0x02`). -/
inductive Side where
  | Buy | Sell
  deriving DecidableEq, Repr

def Side.toByte : Side → Nat
  | .Buy => 0x01
  | .Sell => 0x02

/-- The `OrderType` enum (`Limit = 0x01`, `Market = 0x02`). -/
inductive OrderType where
  | Limit | Market
  deriving DecidableEq, Repr

def OrderType.toByte : OrderType → Nat
  | .Limit => 0x01
  | .Market => 0x02

/-- Protocol decode failures (`io::Error` kinds raised in `protocol.rs`). -/
inductive DecodeError where
  | headerTruncated
  | bodyTruncated
  | unknownKind
  deriving DecidableEq, Repr

/-- Result of a Rust decode: success, a returned `io::Error`, or a panic
from a `bytes::Buf` read past the end of the buffer. -/
inductive DResult (α : Type) where
  | ok (a : α)
  | err (e : DecodeError)
  | panic
  deriving DecidableEq, Repr

/-- Sequence a possibly-panicking byte read into a decoder. -/
def bindO {α β : Type} (o : Option α) (f : α → DResult β) : DResult β :=
  match o with
  | none => .panic
  | some a => f a

/-- The `MessageHeader` struct (16 bytes on the wire). -/
structure MessageHeader where
  version : Nat
  msg_type : MessageType
  reserved : Nat
  length : Nat
  sequence : Nat
  deriving DecidableEq, Repr

/-- Constructor `MessageHeader::new`. -/
def MessageHeader.new (msg_type : MessageType) (length : Nat) : MessageHeader :=
  { version := PROTOCOL_VERSION
    msg_type := msg_type
    reserved := 0
    length := length
    sequence := 0 }

/-- Method `MessageHeader::encode`: `put_u8 version; put_u8 msg_type; put_u16
reserved; put_u32 length; put_u64 sequence`. -/
def MessageHeader.encode (h : MessageHeader) : List Nat :=
  [h.version % 256, h.msg_type.toByte] ++ u16Bytes h.reserved
    ++ u32Bytes h.length ++ u64Bytes h.sequence

/-- Method `MessageHeader::decode`: guard `len < 16`, then `get_u8`, `get_u8` +
`TryFrom`, `get_u16`, `get_u32`, `get_u64`. -/
def MessageHeader.decode (buf : List Nat) : DResult MessageHeader :=
  if buf.length < 16 then .err .headerTruncated
  else
    bindO (rdU8 buf) fun p1 =>
    bindO (rdU8 p1.2) fun p2 =>
    match MessageType.tryFrom p2.1 with
    | none => .err .unknownKind
    | some t =>
      bindO (rdU16 p2.2) fun p3 =>
      bindO (rdU32 p3.2) fun p4 =>
      bindO (rdU64 p4.2) fun p5 =>
      .ok { version := p1.1, msg_type := t, reserved := p3.1,
            length := p4.1, sequence := p5.1 }

/-- The 16-byte NUL-padded symbol field: a zeroed 16-byte array whose
first `min len 15` bytes are copied from the symbol. -/
def symbolField (symbol : List Nat) : List Nat :=
  let symbol_len := min symbol.length 15
  symbol.take symbol_len ++ List.replicate (16 - symbol_len) 0

/-- The `NewOrderMessage` struct. -/
structure NewOrderMessage where
  header : MessageHeader
  symbol : List Nat
  client_order_id : Nat
  user_id : Nat
  side : Side
  order_type : OrderType
  price : Nat
  quantity : Nat
  timestamp : Nat
  deriving DecidableEq, Repr

/-- Constructor `NewOrderMessage::new` (header length fixed at 88; the clock read for
`timestamp` is the explicit parameter `ts`). -/
def NewOrderMessage.new (symbol : List Nat) (client_order_id user_id : Nat)
    (side : Side) (order_type : OrderType) (price quantity ts : Nat) :
    NewOrderMessage :=
  { header := MessageHeader.new .NewOrder 88
    symbol := symbol
    client_order_id := client_order_id
    user_id := user_id
    side := side
    order_type := order_type
    price := price
    quantity := quantity
    timestamp := ts }

/-- Method `NewOrderMessage::encode`: header, 16-byte symbol field, then
`client_order_id`, `user_id`, `side`, `order_type`, `u16 0`, `price`,
`quantity`, `timestamp`. -/
def NewOrderMessage.encode (m : NewOrderMessage) : List Nat :=
  m.header.encode ++ symbolField m.symbol
    ++ u64Bytes m.client_order_id ++ u64Bytes m.user_id
    ++ [m.side.toByte] ++ [m.order_type.toByte] ++ u16Bytes 0
    ++ u64Bytes m.price ++ u64Bytes m.quantity ++ u64Bytes m.timestamp

/-- The `CancelOrderMessage` struct. -/
structure CancelOrderMessage where
  header : MessageHeader
  symbol : List Nat
  client_order_id : Nat
  user_id : Nat
  timestamp : Nat
  deriving DecidableEq, Repr

/-- Constructor `CancelOrderMessage::new` (header length fixed at 56). -/
def CancelOrderMessage.new (symbol : List Nat) (client_order_id user_id ts : Nat) :
    CancelOrderMessage :=
  { header := MessageHeader.new .CancelOrder 56
    symbol := symbol
    client_order_id := client_order_id
    user_id := user_id
    timestamp := ts }

/-- Method `CancelOrderMessage::encode`. -/
def CancelOrderMessage.encode (m : CancelOrderMessage) : List Nat :=
  m.header.encode ++ symbolField m.symbol
    ++ u64Bytes m.client_order_id ++ u64Bytes m.user_id ++ u64Bytes m.timestamp

/-- The `OrderAckMessage` struct. -/
structure OrderAckMessage where
  client_order_id : Nat
  exchange_order_id : Nat
  user_id : Nat
  timestamp : Nat
  deriving DecidableEq, Repr

/-- Method `OrderAckMessage::decode`: guard `len < 32`, then four `get_u64`. -/
def OrderAckMessage.decode (buf : List Nat) : DResult OrderAckMessage :=
  if buf.length < 32 then .err .bodyTruncated
  else
    bindO (rdU64 buf) fun p1 =>
    bindO (rdU64 p1.2) fun p2 =>
    bindO (rdU64 p2.2) fun p3 =>
    bindO (rdU64 p3.2) fun p4 =>
    .ok { client_order_id := p1.1, exchange_order_id := p2.1,
          user_id := p3.1, timestamp := p4.1 }

/-- The `OrderRejectMessage` struct (`text` as bytes). -/
structure OrderRejectMessage where
  client_order_id : Nat
  user_id : Nat
  reason : Nat
  text : List Nat
  timestamp : Nat
  deriving DecidableEq, Repr

/-- Method `OrderRejectMessage::decode`: guard `len < 88`, then `get_u64`,
`get_u64`, `get_u8`, `advance 7`, `copy_to_slice` of 64 text bytes
(NUL-trimmed), `get_u64`. -/
def OrderRejectMessage.decode (buf : List Nat) : DResult OrderRejectMessage :=
  if buf.length < 88 then .err .bodyTruncated
  else
    bindO (rdU64 buf) fun p1 =>
    bindO (rdU64 p1.2) fun p2 =>
    bindO (rdU8 p2.2) fun p3 =>
    bindO (rdAdvance 7 p3.2) fun b4 =>
    bindO (rdSlice 64 b4) fun p5 =>
    bindO (rdU64 p5.2) fun p6 =>
    .ok { client_order_id := p1.1, user_id := p2.1, reason := p3.1,
          text := trimNul p5.1, timestamp := p6.1 }

/-- The `ExecutionMessage` struct. -/
structure ExecutionMessage where
  symbol : List Nat
  client_order_id : Nat
  exchange_order_id : Nat
  execution_id : Nat
  user_id : Nat
  side : Side
  fill_price : Nat
  fill_quantity : Nat
  leaves_quantity : Nat
  timestamp : Nat
  deriving DecidableEq, Repr

/-- Method `ExecutionMessage::decode`: guard `len < 88`, then a 16-byte symbol
(NUL-trimmed), four `get_u64`, a side byte (`0x01` means Buy, anything
else Sell), `advance 7`, four `get_u64`. -/
def ExecutionMessage.decode (buf : List Nat) : DResult ExecutionMessage :=
  if buf.length < 88 then .err .bodyTruncated
  else
    bindO (rdSlice 16 buf) fun p1 =>
    bindO (rdU64 p1.2) fun p2 =>
    bindO (rdU64 p2.2) fun p3 =>
    bindO (rdU64 p3.2) fun p4 =>
    bindO (rdU64 p4.2) fun p5 =>
    bindO (rdU8 p5.2) fun p6 =>
    bindO (rdAdvance 7 p6.2) fun b7 =>
    bindO (rdU64 b7) fun p8 =>
    bindO (rdU64 p8.2) fun p9 =>
    bindO (rdU64 p9.2) fun p10 =>
    bindO (rdU64 p10.2) fun p11 =>
    .ok { symbol := trimNul p1.1, client_order_id := p2.1,
          exchange_order_id := p3.1, execution_id := p4.1, user_id := p5.1,
          side := if p6.1 = 0x01 then .Buy else .Sell,
          fill_price := p8.1, fill_quantity := p9.1,
          leaves_quantity := p10.1, timestamp := p11.1 }

/-- Decoded inbound events pushed to the per-connection queue
(`IncomingMessage` in `client.rs`). -/
inductive IncomingMessage where
  | orderAck (m : OrderAckMessage)
  | orderReject (m : OrderRejectMessage)
  | execution (m : ExecutionMessage)
  deriving DecidableEq, Repr

/-- The `match header.msg_type` dispatch of the receiver loop applied to a
framed body: `some (some ev)` pushes `ev` to the queue, `some none` is a
logged body-decode error or an ignored kind, `none` is a panic inside the
body decoder. -/
def processBody (t : MessageType) (body : List Nat) :
    Option (Option IncomingMessage) :=
  match t with
  | .OrderAck =>
    match OrderAckMessage.decode body with
    | .ok m => some (some (.orderAck m))
    | .err _ => some none
    | .panic => none
  | .OrderReject =>
    match OrderRejectMessage.decode body with
    | .ok m => some (some (.orderReject m))
    | .err _ => some none
    | .panic => none
  | .Execution =>
    match ExecutionMessage.decode body with
    | .ok m => some (some (.execution m))
    | .err _ => some none
    | .panic => none
  | _ => some none

/-- Lines 180–182 of `client.rs`: `let mut msg_buf =
buf.split_to(header.length as usize); msg_buf.advance(16);`.
`split_to` panics when `length` exceeds the buffer, `advance(16)` panics
when the split-off frame holds fewer than 16 bytes; `none` models those
panics. On success: the frame body (header stripped) and the remainder. -/
def extractFrame (len : Nat) (buf : List Nat) : Option (List Nat × List Nat) :=
  if len ≤ buf.length then
    let msg_buf := buf.take len
    let rest := buf.drop len
    if 16 ≤ msg_buf.length then some (msg_buf.drop 16, rest) else none
  else none

/-- Outcome of one iteration of the `while buf.len() >= 16` loop body. -/
inductive StepOut where
  | panic
  | cleared
  | needMore
  | frame (ev : Option IncomingMessage) (rest : List Nat)
  deriving DecidableEq, Repr

/-- One iteration of the receiver loop body (lines 158–217 of
`client.rs`): peek the header on a clone; on header failure clear the
accumulator; if the declared `length` exceeds available bytes wait for
more input; otherwise split off the frame, strip the header and dispatch
the body. -/
def stepOnce (buf : List Nat) : StepOut :=
  match MessageHeader.decode buf with
  | .panic => .panic
  | .err _ => .cleared
  | .ok header =>
    if buf.length < header.length then .needMore
    else
      match extractFrame header.length buf with
      | none => .panic
      | some (body, rest) =>
        match processBody header.msg_type body with
        | none => .panic
        | some ev => .frame ev rest

/-- Result of draining the accumulator: the events pushed to the queue,
and whether the loop panicked, cleared the accumulator, or stopped
normally with a residual accumulator. -/
inductive ProcOut where
  | panic (evs : List IncomingMessage)
  | cleared (evs : List IncomingMessage)
  | ok (evs : List IncomingMessage) (rest : List Nat)
  deriving DecidableEq, Repr

/-- Prefix already-emitted events onto a loop outcome. -/
def prep (e : List IncomingMessage) : ProcOut → ProcOut
  | .panic e' => .panic (e ++ e')
  | .cleared e' => .cleared (e ++ e')
  | .ok e' r => .ok (e ++ e') r

/-- Anatomy of a successful `extractFrame`: the declared length fits the
buffer and is at least the 16 header bytes, the body is the frame minus
its header, and the remainder is the buffer minus the frame. -/
theorem extractFrame_eq_some (len : Nat) (buf body rest : List Nat)
    (h : extractFrame len buf = some (body, rest)) :
    16 ≤ len ∧ len ≤ buf.length ∧
      body = (buf.take len).drop 16 ∧ rest = buf.drop len := by
  unfold extractFrame at h
  split at h
  · rename_i hle
    simp only [List.length_take] at h
    split at h
    · rename_i h16
      simp only [Option.some.injEq, Prod.mk.injEq] at h
      exact ⟨by omega, hle, h.1.symm, h.2.symm⟩
    · cases h
  · cases h

/-- Lemma: `stepOnce` only yields a frame after `extractFrame` succeeded, so the
remainder is strictly shorter than the input accumulator. -/
theorem stepOnce_rest_lt (buf : List Nat) (ev : Option IncomingMessage)
    (rest : List Nat) (h : stepOnce buf = .frame ev rest) :
    rest.length < buf.length := by
  unfold stepOnce at h
  split at h
  · cases h
  · cases h
  · split at h
    · cases h
    · split at h
      · cases h
      · rename_i header hd hlen body rest2 hex
        split at h
        · cases h
        · simp only [StepOut.frame.injEq] at h
          obtain ⟨h16, hle, _, hrest⟩ := extractFrame_eq_some _ _ _ _ hex
          rw [h.2.symm, hrest, List.length_drop]
          omega

/-- The inner `while buf.len() >= 16` loop of the receiver task: drains
complete frames from the accumulator, collecting pushed events. -/
def processBuf (buf : List Nat) : ProcOut :=
  if buf.length < 16 then .ok [] buf
  else
    match hs : stepOnce buf with
    | .panic => .panic []
    | .cleared => .cleared []
    | .needMore => .ok [] buf
    | .frame ev rest => prep ev.toList (processBuf rest)
termination_by buf.length
decreasing_by exact stepOnce_rest_lt buf ev rest hs

/-- The outer read loop: each socket read appends a chunk to the
accumulator and then drains it; a cleared accumulator restarts empty, a
panic kills the receiver task. -/
def runChunks (acc : List Nat) : List (List Nat) → ProcOut
  | [] => .ok [] acc
  | c :: cs =>
    match processBuf (acc ++ c) with
    | .panic e => .panic e
    | .cleared e => prep e (runChunks [] cs)
    | .ok e r => prep e (runChunks r cs)

/-- A well-formed frame: its header decodes, the declared `length` is the
frame's true byte count (at least the 16 header bytes), and dispatching
its body does not panic. -/
def wellFormedFrame (f : List Nat) : Bool :=
  match MessageHeader.decode f with
  | .ok h =>
    h.length == f.length && decide (16 ≤ f.length)
      && (processBody h.msg_type (f.drop 16)).isSome
  | _ => false

/-- The events a single well-formed frame pushes to the queue. -/
def frameEvents (f : List Nat) : List IncomingMessage :=
  match MessageHeader.decode f with
  | .ok h =>
    match processBody h.msg_type (f.drop 16) with
    | some ev => ev.toList
    | none => []
  | _ => []

/-- Method `MatchingConnection::next_sequence`: increment the per-connection
counter and return the new value. -/
def next_sequence (seq : Nat) : Nat × Nat := (seq + 1, seq + 1)

/-- Method `MatchingConnection::submit_order` on a connection whose counter is
`seq`: allocate the next `client_order_id`, encode the `NewOrderMessage`
and send it. Returns `((client_order_id, bytes written), new counter)`. -/
def submit_order (seq : Nat) (symbol : List Nat) (user_id : Nat)
    (side : Side) (order_type : OrderType) (price quantity ts : Nat) :
    (Nat × List Nat) × Nat :=
  let p := next_sequence seq
  let msg := NewOrderMessage.new symbol p.1 user_id side order_type
    price quantity ts
  ((p.1, msg.encode), p.2)

/-- Method `MatchingConnection::cancel_order`: encode and send a
`CancelOrderMessage`; the per-connection counter is not touched.
Returns `(bytes written, counter)`. -/
def cancel_order (seq : Nat) (symbol : List Nat)
    (client_order_id user_id ts : Nat) : List Nat × Nat :=
  let msg := CancelOrderMessage.new symbol client_order_id user_id ts
  (msg.encode, seq)

/-- The ids returned by `n` consecutive `submit_order` calls on one
connection (other arguments do not affect the counter). -/
def submitTrace (seq : Nat) (symbol : List Nat) (user_id : Nat)
    (side : Side) (order_type : OrderType) (price quantity ts : Nat) :
    Nat → List Nat
  | 0 => []
  | n + 1 =>
    let r := submit_order seq symbol user_id side order_type price quantity ts
    r.1.1 :: submitTrace r.2 symbol user_id side order_type price quantity ts n

/-- Pool-level failures (`anyhow::bail!` sites in `client.rs`). -/
inductive PoolError where
  | noConnections
  | poolExhausted
  deriving DecidableEq, Repr

/-- Constructor `MatchingClient::new`: `attempts` lists the outcome of each of the
`pool_size` sequential connect attempts (`true` = connected; a fresh
connection's counter is 0). Failed attempts are logged and skipped;
construction fails only when the pool ends up empty. -/
def MatchingClient.new (attempts : List Bool) : Except PoolError (List Nat) :=
  let connections := (attempts.filter id).map fun _ => (0 : Nat)
  if connections.isEmpty then .error .noConnections
  else .ok connections

/-- Method `MatchingClient::get_connection`: fail with the pool-exhausted error
on an empty live set, else pick index `now % len` (the
`timestamp_nanos` read is the explicit parameter `now`). -/
def get_connection (conns : List Nat) (now : Nat) : Except PoolError Nat :=
  if conns.isEmpty then .error .poolExhausted
  else .ok (now % conns.length)

/-- Method `MatchingClient::submit_order`: select a connection and delegate.
Returns the delegated result and the pool with that connection's counter
advanced. -/
def pool_submit_order (conns : List Nat) (now : Nat) (symbol : List Nat)
    (user_id : Nat) (side : Side) (order_type : OrderType)
    (price quantity ts : Nat) :
    Except PoolError ((Nat × List Nat) × List Nat) :=
  match get_connection conns now with
  | .error e => .error e
  | .ok idx =>
    let r := submit_order (conns.getD idx 0) symbol user_id side order_type
      price quantity ts
    .ok (r.1, conns.set idx r.2)

/-- Method `MatchingClient::cancel_order`: select a connection and delegate. -/
def pool_cancel_order (conns : List Nat) (now : Nat) (symbol : List Nat)
    (client_order_id user_id ts : Nat) :
    Except PoolError (List Nat × List Nat) :=
  match get_connection conns now with
  | .error e => .error e
  | .ok idx =>
    let r := cancel_order (conns.getD idx 0) symbol client_order_id user_id ts
    .ok (r.1, conns.set idx r.2)

theorem bindO_some {α β : Type} (a : α) (f : α → DResult β) :
    bindO (some a) f = f a := rfl

theorem rdSlice_of_le {n : Nat} {l : List Nat} (h : n ≤ l.length) :
    rdSlice n l = some (l.take n, l.drop n) := by
  unfold rdSlice; rw [if_pos h]

theorem rdAdvance_of_le {n : Nat} {l : List Nat} (h : n ≤ l.length) :
    rdAdvance n l = some (l.drop n) := by
  unfold rdAdvance; rw [if_pos h]

theorem rdU16_of_le {l : List Nat} (h : 2 ≤ l.length) :
    rdU16 l = some (beVal (l.take 2), l.drop 2) := by
  unfold rdU16; rw [rdSlice_of_le h]; rfl

theorem rdU32_of_le {l : List Nat} (h : 4 ≤ l.length) :
    rdU32 l = some (beVal (l.take 4), l.drop 4) := by
  unfold rdU32; rw [rdSlice_of_le h]; rfl

theorem rdU64_of_le {l : List Nat} (h : 8 ≤ l.length) :
    rdU64 l = some (beVal (l.take 8), l.drop 8) := by
  unfold rdU64; rw [rdSlice_of_le h]; rfl

theorem rdU8_of_pos {l : List Nat} (h : 0 < l.length) :
    rdU8 l = some (l.headD 0, l.drop 1) := by
  cases l with
  | nil => simp at h
  | cons b r => rfl

theorem headD_drop (l : List Nat) (n : Nat) :
    (l.drop n).headD 0 = l.getD n 0 := by
  induction l generalizing n with
  | nil => simp [List.getD]
  | cons b r ih =>
    cases n with
    | zero => rfl
    | succ m => simp only [List.drop_succ_cons, List.getD_cons_succ]; exact ih m

/-- Normal form of `MessageHeader::decode` on a buffer of at least 16
bytes: the result depends only on the first 16 bytes, field by field. -/
theorem MessageHeader.decode_of_le {buf : List Nat} (h : 16 ≤ buf.length) :
    MessageHeader.decode buf =
      match MessageType.tryFrom (buf.getD 1 0) with
      | none => .err .unknownKind
      | some t =>
        .ok ⟨buf.getD 0 0, t, beVal ((buf.drop 2).take 2),
          beVal ((buf.drop 4).take 4), beVal ((buf.drop 8).take 8)⟩ := by
  unfold MessageHeader.decode
  rw [if_neg (by omega)]
  rw [rdU8_of_pos (by omega), bindO_some]
  simp only
  rw [rdU8_of_pos (by simp; omega), bindO_some]
  simp only
  rw [headD_drop]
  have hd2 : (buf.drop 1).drop 1 = buf.drop 2 := by rw [List.drop_drop]
  rw [hd2]
  cases htf : MessageType.tryFrom (buf.getD 1 0) with
  | none => rfl
  | some t =>
    simp only
    rw [rdU16_of_le (by simp; omega), bindO_some]
    simp only
    have hd4 : (buf.drop 2).drop 2 = buf.drop 4 := by rw [List.drop_drop]
    rw [hd4]
    rw [rdU32_of_le (by simp; omega), bindO_some]
    simp only
    have hd8 : (buf.drop 4).drop 4 = buf.drop 8 := by rw [List.drop_drop]
    rw [hd8]
    rw [rdU64_of_le (by simp; omega), bindO_some]
    simp only
    have hv : buf.headD 0 = buf.getD 0 0 := by
      cases buf with
      | nil => rfl
      | cons b r => rfl
    rw [hv]

/-- C10: Decoding an Execution body of at least 88 bytes is total and
never fails on the side tag: the side byte (offset 48) decodes to Buy
exactly when it is 0x01 and to Sell for every other value, with every
other field read at its fixed offset. -/
theorem execution_decode_side_total {buf : List Nat} (h : 88 ≤ buf.length) :
    ExecutionMessage.decode buf =
      .ok ⟨trimNul (buf.take 16), beVal ((buf.drop 16).take 8),
        beVal ((buf.drop 24).take 8), beVal ((buf.drop 32).take 8),
        beVal ((buf.drop 40).take 8),
        if buf.getD 48 0 = 0x01 then .Buy else .Sell,
        beVal ((buf.drop 56).take 8), beVal ((buf.drop 64).take 8),
        beVal ((buf.drop 72).take 8), beVal ((buf.drop 80).take 8)⟩ := by
  unfold ExecutionMessage.decode
  rw [if_neg (by omega)]
  rw [rdSlice_of_le (by omega), bindO_some]
  simp only
  rw [rdU64_of_le (by simp; omega), bindO_some]
  simp only
  have h24 : (buf.drop 16).drop 8 = buf.drop 24 := by rw [List.drop_drop]
  rw [h24]
  rw [rdU64_of_le (by simp; omega), bindO_some]
  simp only
  have h32 : (buf.drop 24).drop 8 = buf.drop 32 := by rw [List.drop_drop]
  rw [h32]
  rw [rdU64_of_le (by simp; omega), bindO_some]
  simp only
  have h40 : (buf.drop 32).drop 8 = buf.drop 40 := by rw [List.drop_drop]
  rw [h40]
  rw [rdU64_of_le (by simp; omega), bindO_some]
  simp only
  have h48 : (buf.drop 40).drop 8 = buf.drop 48 := by rw [List.drop_drop]
  rw [h48]
  rw [rdU8_of_pos (by simp; omega), bindO_some]
  simp only
  rw [headD_drop]
  have h49 : (buf.drop 48).drop 1 = buf.drop 49 := by rw [List.drop_drop]
  rw [h49]
  rw [rdAdvance_of_le (by simp; omega), bindO_some]
  have h56 : (buf.drop 49).drop 7 = buf.drop 56 := by rw [List.drop_drop]
  rw [h56]
  rw [rdU64_of_le (by simp; omega), bindO_some]
  simp only
  have h64 : (buf.drop 56).drop 8 = buf.drop 64 := by rw [List.drop_drop]
  rw [h64]
  rw [rdU64_of_le (by simp; omega), bindO_some]
  simp only
  have h72 : (buf.drop 64).drop 8 = buf.drop 72 := by rw [List.drop_drop]
  rw [h72]
  rw [rdU64_of_le (by simp; omega), bindO_some]
  simp only
  have h80 : (buf.drop 72).drop 8 = buf.drop 80 := by rw [List.drop_drop]
  rw [h80]
  rw [rdU64_of_le (by simp; omega), bindO_some]

/-- C10 witness: an 88-byte Execution body whose side byte is the invalid
tag 0xFF decodes without error, to side Sell. -/
theorem execution_decode_side_total_witness :
    ExecutionMessage.decode (List.replicate 48 0 ++ 255 :: List.replicate 39 0)
      = .ok ⟨[], 0, 0, 0, 0, .Sell, 0, 0, 0, 0⟩ :=
  (execution_decode_side_total (by decide)).trans (by decide)

/-- C1: `OrderRejectMessage::decode` guards only for 88 bytes while its
reads consume 96 (8+8+1+7+64+8): an 88- or 95-byte body passes the guard
and panics in the final `get_u64` instead of returning the truncation
error; only buffers under 88 bytes get the error, and 96 bytes decode. -/
theorem orderReject_decode_truncation_bug :
    OrderRejectMessage.decode (List.replicate 88 0) = .panic ∧
    OrderRejectMessage.decode (List.replicate 95 0) = .panic ∧
    OrderRejectMessage.decode (List.replicate 87 0) = .err .bodyTruncated ∧
    OrderRejectMessage.decode (List.replicate 96 0) = .ok ⟨0, 0, 0, [], 0⟩ := by
  decide

/-- C3: encoding a NewOrder emits 76 bytes, not the 88 the message's own
header declares; the symbol is written as a fixed 16-byte NUL-padded
field for both a 15-byte and a 20-byte symbol, truncated to 15 visible
bytes, and NUL-trimming the 20-byte case yields exactly the first 15
bytes. -/
theorem newOrder_encode_size_bug :
    ((NewOrderMessage.new
        [65, 66, 67, 68, 69, 70, 71, 72, 73, 74, 75, 76, 77, 78, 79, 80, 81, 82, 83, 84]
        1 7 .Buy .Limit 15050 100 0).encode).length = 76 ∧
    ((NewOrderMessage.new [65, 66, 67, 68, 69, 70, 71, 72, 73, 74, 75, 76, 77, 78, 79]
        1 7 .Buy .Limit 15050 100 0).encode).length = 76 ∧
    (NewOrderMessage.new
        [65, 66, 67, 68, 69, 70, 71, 72, 73, 74, 75, 76, 77, 78, 79, 80, 81, 82, 83, 84]
        1 7 .Buy .Limit 15050 100 0).header.length = 88 ∧
    (((NewOrderMessage.new
        [65, 66, 67, 68, 69, 70, 71, 72, 73, 74, 75, 76, 77, 78, 79, 80, 81, 82, 83, 84]
        1 7 .Buy .Limit 15050 100 0).encode).drop 16).take 16
      = [65, 66, 67, 68, 69, 70, 71, 72, 73, 74, 75, 76, 77, 78, 79, 0] ∧
    symbolField [65, 66, 67, 68, 69, 70, 71, 72, 73, 74, 75, 76, 77, 78, 79]
      = [65, 66, 67, 68, 69, 70, 71, 72, 73, 74, 75, 76, 77, 78, 79, 0] ∧
    trimNul (symbolField
        [65, 66, 67, 68, 69, 70, 71, 72, 73, 74, 75, 76, 77, 78, 79, 80, 81, 82, 83, 84])
      = [65, 66, 67, 68, 69, 70, 71, 72, 73, 74, 75, 76, 77, 78, 79] := by
  decide

/-- A buffer whose header decodes has at least the 16 header bytes. -/
theorem headerDecode_ok_length {buf : List Nat} {h : MessageHeader}
    (hd : MessageHeader.decode buf = .ok h) : 16 ≤ buf.length := by
  by_contra hc
  unfold MessageHeader.decode at hd
  rw [if_pos (by omega)] at hd
  cases hd

/-- C4: an accumulator whose peeked header is recognized but whose
declared length exceeds the available bytes yields no frame: the step
reports `needMore` and the loop stops with the accumulator intact. -/
theorem reassembler_waits_when_incomplete (buf : List Nat) (h : MessageHeader)
    (hd : MessageHeader.decode buf = .ok h) (hlen : buf.length < h.length) :
    stepOnce buf = .needMore ∧ processBuf buf = .ok [] buf := by
  have h16 : 16 ≤ buf.length := headerDecode_ok_length hd
  have hstep : stepOnce buf = .needMore := by
    unfold stepOnce
    rw [hd]
    simp only
    rw [if_pos hlen]
  refine ⟨hstep, ?_⟩
  unfold processBuf
  rw [if_neg (by omega), hstep]

/-- C4 witness: a 16-byte accumulator holding an OrderAck header that
declares a 48-byte frame stays untouched. -/
theorem reassembler_waits_when_incomplete_witness :
    stepOnce [1, 0x10, 0, 0, 0, 0, 0, 48, 0, 0, 0, 0, 0, 0, 0, 0] = .needMore ∧
    processBuf [1, 0x10, 0, 0, 0, 0, 0, 48, 0, 0, 0, 0, 0, 0, 0, 0]
      = .ok [] [1, 0x10, 0, 0, 0, 0, 0, 48, 0, 0, 0, 0, 0, 0, 0, 0] :=
  reassembler_waits_when_incomplete _ ⟨1, .OrderAck, 0, 48, 0⟩ (by decide) (by decide)

/-- The ids of consecutive submissions starting from counter `seq` are
`seq+1, seq+2, ...`. -/
theorem submitTrace_eq_range' (symbol : List Nat) (user_id : Nat) (side : Side)
    (order_type : OrderType) (price quantity ts : Nat) :
    ∀ n seq, submitTrace seq symbol user_id side order_type price quantity ts n
      = List.range' (seq + 1) n := by
  intro n
  induction n with
  | zero => intro seq; rfl
  | succ m ih =>
    intro seq
    show (seq + 1) :: submitTrace (seq + 1) symbol user_id side order_type
        price quantity ts m = List.range' (seq + 1) (m + 1)
    rw [ih (seq + 1)]
    rfl

/-- C7: on one connection the returned `client_order_id`s are the strictly
increasing sequence 1, 2, ... — the first call returns 1, the second 2,
and the trace is pairwise increasing; every fresh connection starts at 1,
so ids repeat across distinct pool connections. -/
theorem client_order_id_strictly_increasing (symbol : List Nat) (user_id : Nat)
    (side : Side) (order_type : OrderType) (price quantity ts n : Nat) :
    submitTrace 0 symbol user_id side order_type price quantity ts n
      = List.range' 1 n ∧
    submitTrace 0 symbol user_id side order_type price quantity ts 2 = [1, 2] ∧
    List.Pairwise (· < ·)
      (submitTrace 0 symbol user_id side order_type price quantity ts n) ∧
    (submit_order 0 symbol user_id side order_type price quantity ts).1.1 = 1 := by
  refine ⟨submitTrace_eq_range' symbol user_id side order_type price quantity ts n 0,
    ?_, ?_, rfl⟩
  · rw [submitTrace_eq_range' symbol user_id side order_type price quantity ts 2 0]
    rfl
  · rw [submitTrace_eq_range' symbol user_id side order_type price quantity ts n 0]
    cases n with
    | zero => simp
    | succ m =>
      exact List.chain_iff_pairwise.mp (List.chain_lt_range' 1 m Nat.zero_lt_one)

/-- C9: `cancel_order` leaves the per-connection counter untouched, so the
next `submit_order` returns the same id with or without the cancel. -/
theorem cancel_order_preserves_counter (seq : Nat) (symbol csym : List Nat)
    (cancel_id user_id uid2 : Nat) (side : Side) (order_type : OrderType)
    (price quantity ts ts2 : Nat) :
    (cancel_order seq csym cancel_id user_id ts2).2 = seq ∧
    (submit_order (cancel_order seq csym cancel_id user_id ts2).2
        symbol uid2 side order_type price quantity ts).1.1
      = (submit_order seq symbol uid2 side order_type price quantity ts).1.1 :=
  ⟨rfl, rfl⟩

/-- C8: pool construction fails exactly when every connect attempt
failed; pool-level submit/cancel fail with the pool-exhausted error
exactly when the live set is empty, and otherwise delegate to the
connection at the time-derived index `now % conns.length`. -/
theorem pool_construction_and_routing (attempts : List Bool) (conns : List Nat)
    (now : Nat) (symbol : List Nat) (user_id : Nat) (side : Side)
    (order_type : OrderType) (price quantity ts cancel_id : Nat) :
    ((MatchingClient.new attempts = .error .noConnections)
        ↔ ∀ a ∈ attempts, a = false) ∧
    ((pool_submit_order conns now symbol user_id side order_type price quantity ts
        = .error .poolExhausted) ↔ conns = []) ∧
    ((pool_cancel_order conns now symbol cancel_id user_id ts
        = .error .poolExhausted) ↔ conns = []) ∧
    (conns ≠ [] →
      pool_submit_order conns now symbol user_id side order_type price quantity ts
        = .ok ((submit_order (conns.getD (now % conns.length) 0) symbol user_id
              side order_type price quantity ts).1,
            conns.set (now % conns.length)
              (submit_order (conns.getD (now % conns.length) 0) symbol user_id
                side order_type price quantity ts).2)) ∧
    (conns ≠ [] →
      pool_cancel_order conns now symbol cancel_id user_id ts
        = .ok ((cancel_order (conns.getD (now % conns.length) 0) symbol
              cancel_id user_id ts).1,
            conns.set (now % conns.length)
              (cancel_order (conns.getD (now % conns.length) 0) symbol
                cancel_id user_id ts).2)) := by
  have hget_nil : conns = [] →
      get_connection conns now = .error .poolExhausted := by
    intro hc
    subst hc
    rfl
  have hget_cons : conns ≠ [] →
      get_connection conns now = .ok (now % conns.length) := by
    intro hc
    unfold get_connection
    rw [if_neg (by simpa [List.isEmpty_iff] using hc)]
  refine ⟨?_, ?_, ?_, ?_, ?_⟩
  · unfold MatchingClient.new
    simp only [List.isEmpty_iff, List.map_eq_nil_iff, List.filter_eq_nil_iff]
    split
    · rename_i hall
      simp only [true_iff]
      intro a ha
      have := hall a ha
      simpa using this
    · rename_i hall
      push_neg at hall
      obtain ⟨a, ha, hpa⟩ := hall
      have ha' : a = true := by simpa using hpa
      constructor
      · intro hc
        simp at hc
      · intro hc
        simp [hc a ha] at ha'
  · unfold pool_submit_order
    constructor
    · intro hc
      by_contra hne
      rw [hget_cons hne] at hc
      simp at hc
    · intro hc
      rw [hget_nil hc]
  · unfold pool_cancel_order
    constructor
    · intro hc
      by_contra hne
      rw [hget_cons hne] at hc
      simp at hc
    · intro hc
      rw [hget_nil hc]
  · intro hne
    unfold pool_submit_order
    rw [hget_cons hne]
  · intro hne
    unfold pool_cancel_order
    rw [hget_cons hne]

/-- C8 witness: two of three attempts succeed and construction succeeds;
an empty pool rejects a submit with the pool-exhausted error; a two-slot
pool at time 3 routes to slot 1 and returns id 1 there. -/
theorem pool_construction_and_routing_witness :
    MatchingClient.new [false, true, true] ≠ .error .noConnections ∧
    pool_submit_order [] 5 [] 3 .Buy .Limit 1 2 9 = .error .poolExhausted ∧
    pool_submit_order [0, 0] 3 [] 7 .Buy .Limit 15050 100 0
      = .ok ((1, (NewOrderMessage.new [] 1 7 .Buy .Limit 15050 100 0).encode),
          [0, 1]) :=
  ⟨fun hc => by
      have := (pool_construction_and_routing [false, true, true] [] 0 [] 0
        .Buy .Limit 0 0 0 0).1.mp hc
      simpa using this true (by simp),
   (pool_construction_and_routing [] ([] : List Nat) 5 [] 3
      .Buy .Limit 1 2 9 0).2.1.mpr rfl,
   ((pool_construction_and_routing [] [0, 0] 3 [] 7
      .Buy .Limit 15050 100 0 0).2.2.2.1 (by decide)).trans (by rfl)⟩

theorem processBuf_small {buf : List Nat} (h : buf.length < 16) :
    processBuf buf = .ok [] buf := by
  unfold processBuf
  rw [if_pos h]

theorem processBuf_of_panic {buf : List Nat} (h16 : 16 ≤ buf.length)
    (h : stepOnce buf = .panic) : processBuf buf = .panic [] := by
  conv_lhs => unfold processBuf
  rw [if_neg (by omega)]
  split
  · rfl
  · rename_i hs; rw [h] at hs; cases hs
  · rename_i hs; rw [h] at hs; cases hs
  · rename_i ev rest hs; rw [h] at hs; cases hs

theorem processBuf_of_cleared {buf : List Nat} (h16 : 16 ≤ buf.length)
    (h : stepOnce buf = .cleared) : processBuf buf = .cleared [] := by
  conv_lhs => unfold processBuf
  rw [if_neg (by omega)]
  split
  · rename_i hs; rw [h] at hs; cases hs
  · rfl
  · rename_i hs; rw [h] at hs; cases hs
  · rename_i ev rest hs; rw [h] at hs; cases hs

theorem processBuf_of_needMore {buf : List Nat} (h16 : 16 ≤ buf.length)
    (h : stepOnce buf = .needMore) : processBuf buf = .ok [] buf := by
  conv_lhs => unfold processBuf
  rw [if_neg (by omega)]
  split
  · rename_i hs; rw [h] at hs; cases hs
  · rename_i hs; rw [h] at hs; cases hs
  · rfl
  · rename_i ev rest hs; rw [h] at hs; cases hs

theorem processBuf_of_frame {buf : List Nat} {ev : Option IncomingMessage}
    {rest : List Nat} (h16 : 16 ≤ buf.length)
    (h : stepOnce buf = .frame ev rest) :
    processBuf buf = prep ev.toList (processBuf rest) := by
  conv_lhs => unfold processBuf
  rw [if_neg (by omega)]
  split
  · rename_i hs; rw [h] at hs; cases hs
  · rename_i hs; rw [h] at hs; cases hs
  · rename_i hs; rw [h] at hs; cases hs
  · rename_i ev2 rest2 hs
    rw [h] at hs
    simp only [StepOut.frame.injEq] at hs
    rw [hs.1, hs.2]

theorem prep_nil (x : ProcOut) : prep [] x = x := by
  cases x <;> rfl

theorem prep_prep (a b : List IncomingMessage) (x : ProcOut) :
    prep a (prep b x) = prep (a ++ b) x := by
  cases x <;> simp [prep]

theorem prep_eq_ok {e e1 : List IncomingMessage} {x : ProcOut} {r1 : List Nat}
    (h : prep e x = .ok e1 r1) :
    ∃ e', x = .ok e' r1 ∧ e1 = e ++ e' := by
  cases x with
  | panic e' => cases h
  | cleared e' => cases h
  | ok e' r =>
    simp only [prep, ProcOut.ok.injEq] at h
    exact ⟨e', by rw [h.2], h.1.symm⟩

theorem headD_take {l : List Nat} {n : Nat} (h : 0 < n) :
    (l.take n).headD 0 = l.headD 0 := by
  cases l with
  | nil => simp
  | cons b r =>
    cases n with
    | zero => omega
    | succ m => rfl

theorem getD_take {l : List Nat} {i n : Nat} (h : i < n) :
    (l.take n).getD i 0 = l.getD i 0 := by
  rw [← headD_drop, ← headD_drop, List.drop_take]
  exact headD_take (by omega)

theorem take_drop_take {l : List Nat} {k m n : Nat} (h : k + m ≤ n) :
    ((l.take n).drop k).take m = (l.drop k).take m := by
  rw [List.drop_take, List.take_take]
  congr 1
  omega

/-- Peek determinism: `MessageHeader::decode` reads only the first 16 bytes. -/
theorem headerDecode_take16 {l : List Nat} (h : 16 ≤ l.length) :
    MessageHeader.decode l = MessageHeader.decode (l.take 16) := by
  rw [MessageHeader.decode_of_le h,
    MessageHeader.decode_of_le (by simp [List.length_take]; omega)]
  rw [getD_take (show (1 : Nat) < 16 by omega),
    getD_take (show (0 : Nat) < 16 by omega),
    take_drop_take (show 2 + 2 ≤ 16 by omega),
    take_drop_take (show 4 + 4 ≤ 16 by omega),
    take_drop_take (show 8 + 8 ≤ 16 by omega)]

/-- Peeking the header ignores everything after the first 16 bytes. -/
theorem headerDecode_append {a : List Nat} (b : List Nat) (h : 16 ≤ a.length) :
    MessageHeader.decode (a ++ b) = MessageHeader.decode a := by
  rw [headerDecode_take16 (by simp; omega), headerDecode_take16 h,
    List.take_append_of_le_length h]

theorem stepOnce_frame_intro {buf : List Nat} {hd : MessageHeader}
    {ev : Option IncomingMessage}
    (hdec : MessageHeader.decode buf = .ok hd) (h16 : 16 ≤ hd.length)
    (hle : hd.length ≤ buf.length)
    (hpb : processBody hd.msg_type ((buf.take hd.length).drop 16) = some ev) :
    stepOnce buf = .frame ev (buf.drop hd.length) := by
  have hex : extractFrame hd.length buf
      = some ((buf.take hd.length).drop 16, buf.drop hd.length) := by
    unfold extractFrame
    rw [if_pos hle]
    simp only [List.length_take]
    rw [if_pos (by omega)]
  unfold stepOnce
  rw [hdec]
  simp only
  rw [if_neg (by omega), hex]
  simp only
  rw [hpb]

theorem stepOnce_eq_frame {buf : List Nat} {ev : Option IncomingMessage}
    {rest : List Nat} (h : stepOnce buf = .frame ev rest) :
    ∃ hd : MessageHeader, MessageHeader.decode buf = .ok hd ∧
      16 ≤ hd.length ∧ hd.length ≤ buf.length ∧
      processBody hd.msg_type ((buf.take hd.length).drop 16) = some ev ∧
      rest = buf.drop hd.length := by
  unfold stepOnce at h
  split at h
  · cases h
  · cases h
  · rename_i hd hdec
    split at h
    · cases h
    · rename_i hlen
      split at h
      · cases h
      · rename_i body rest2 hex
        split at h
        · cases h
        · rename_i ev2 hpb
          simp only [StepOut.frame.injEq] at h
          obtain ⟨h16, hle, hbody, hrest⟩ := extractFrame_eq_some _ _ _ _ hex
          refine ⟨hd, hdec, h16, hle, ?_, ?_⟩
          · rw [← hbody, hpb, h.1]
          · rw [← h.2, hrest]

theorem stepOnce_append_frame {a : List Nat} (b : List Nat)
    {ev : Option IncomingMessage} {rest : List Nat}
    (h : stepOnce a = .frame ev rest) :
    stepOnce (a ++ b) = .frame ev (rest ++ b) := by
  obtain ⟨hd, hdec, h16, hle, hpb, hrest⟩ := stepOnce_eq_frame h
  have h16a : 16 ≤ a.length := headerDecode_ok_length hdec
  have hrw : (a ++ b).take hd.length = a.take hd.length :=
    List.take_append_of_le_length hle
  have hstep := @stepOnce_frame_intro (a ++ b) hd ev
    (by rw [headerDecode_append b h16a]; exact hdec) h16
    (by simp; omega) (by rw [hrw]; exact hpb)
  rw [hstep, List.drop_append_of_le_length hle, hrest]

/-- Consuming one well-formed frame from the front of the accumulator. -/
theorem processBuf_cons_frame {f : List Nat} (s : List Nat)
    (hwf : wellFormedFrame f = true) :
    processBuf (f ++ s) = prep (frameEvents f) (processBuf s) := by
  unfold wellFormedFrame at hwf
  split at hwf
  · rename_i hd hdec
    simp only [Bool.and_eq_true, beq_iff_eq, decide_eq_true_eq,
      Option.isSome_iff_exists] at hwf
    obtain ⟨⟨hlen, h16⟩, ev, hpb⟩ := hwf
    have hfe : frameEvents f = ev.toList := by
      unfold frameEvents
      rw [hdec]
      simp only
      rw [hpb]
    have htake : (f ++ s).take hd.length = f := by
      rw [hlen, List.take_left]
    have hstep : stepOnce (f ++ s) = .frame ev ((f ++ s).drop hd.length) :=
      stepOnce_frame_intro (by rw [headerDecode_append s h16]; exact hdec)
        (by omega) (by simp; omega) (by rw [htake]; exact hpb)
    have hdrop : (f ++ s).drop hd.length = s := by
      rw [hlen, List.drop_left]
    rw [hdrop] at hstep
    rw [processBuf_of_frame (by simp; omega) hstep, hfe]
  · cases hwf

/-- Composing the drain loop: whatever the loop left in the accumulator
is exactly what it starts from when more bytes arrive. -/
theorem processBuf_append (a : List Nat) :
    ∀ (b : List Nat) (e1 : List IncomingMessage) (r1 : List Nat),
      processBuf a = .ok e1 r1 →
      processBuf (a ++ b) = prep e1 (processBuf (r1 ++ b)) := by
  induction a using processBuf.induct with
  | case1 a h =>
    intro b e1 r1 hp
    rw [processBuf_small h] at hp
    simp only [ProcOut.ok.injEq] at hp
    rw [← hp.1, ← hp.2, prep_nil]
  | case2 a h hs =>
    intro b e1 r1 hp
    rw [processBuf_of_panic (by omega) hs] at hp
    cases hp
  | case3 a h hs =>
    intro b e1 r1 hp
    rw [processBuf_of_cleared (by omega) hs] at hp
    cases hp
  | case4 a h hs =>
    intro b e1 r1 hp
    rw [processBuf_of_needMore (by omega) hs] at hp
    simp only [ProcOut.ok.injEq] at hp
    rw [← hp.1, ← hp.2, prep_nil]
  | case5 a h ev rest hs ih =>
    intro b e1 r1 hp
    rw [processBuf_of_frame (by omega) hs] at hp
    obtain ⟨e', hre, he1⟩ := prep_eq_ok hp
    rw [processBuf_of_frame (by simp; omega) (stepOnce_append_frame b hs),
      ih b e' r1 hre, prep_prep, ← he1]

/-- The residue the drain loop leaves behind is stuck: draining it again
yields nothing. -/
theorem processBuf_residue (a : List Nat) :
    ∀ (e : List IncomingMessage) (r : List Nat),
      processBuf a = .ok e r → processBuf r = .ok [] r := by
  induction a using processBuf.induct with
  | case1 a h =>
    intro e r hp
    rw [processBuf_small h] at hp
    simp only [ProcOut.ok.injEq] at hp
    rw [← hp.2, processBuf_small h]
  | case2 a h hs =>
    intro e r hp
    rw [processBuf_of_panic (by omega) hs] at hp
    cases hp
  | case3 a h hs =>
    intro e r hp
    rw [processBuf_of_cleared (by omega) hs] at hp
    cases hp
  | case4 a h hs =>
    intro e r hp
    rw [processBuf_of_needMore (by omega) hs] at hp
    simp only [ProcOut.ok.injEq] at hp
    rw [← hp.2, processBuf_of_needMore (by omega) hs]
  | case5 a h ev rest hs ih =>
    intro e r hp
    rw [processBuf_of_frame (by omega) hs] at hp
    obtain ⟨e', hre, he1⟩ := prep_eq_ok hp
    exact ih e' r hre

/-- Draining a whole stream of well-formed frames emits every frame's
events and empties the accumulator. -/
theorem processBuf_flatten (frames : List (List Nat))
    (hwf : ∀ f ∈ frames, wellFormedFrame f = true) :
    processBuf frames.flatten = .ok ((frames.map frameEvents).flatten) [] := by
  induction frames with
  | nil => simpa using processBuf_small (by simp)
  | cons f fs ih =>
    have hwff := hwf f (by simp)
    have hwfs : ∀ g ∈ fs, wellFormedFrame g = true :=
      fun g hg => hwf g (by simp [hg])
    rw [List.flatten_cons, processBuf_cons_frame _ hwff, ih hwfs]
    simp [prep]

/-- Draining any prefix of a well-formed frame stream succeeds (no clear,
no panic) and leaves a residue that still lines up with the frame
boundaries: residue plus the unread tail is a suffix of the stream. -/
theorem processBuf_stream_front (frames : List (List Nat)) :
    ∀ (p q : List Nat), (∀ f ∈ frames, wellFormedFrame f = true) →
      p ++ q = frames.flatten →
      ∃ (e : List IncomingMessage) (r : List Nat) (k : Nat),
        processBuf p = .ok e r ∧ r ++ q = (frames.drop k).flatten := by
  induction frames with
  | nil =>
    intro p q hwf hpq
    simp only [List.flatten_nil, List.append_eq_nil] at hpq
    obtain ⟨hp, hq⟩ := hpq
    subst hp; subst hq
    exact ⟨[], [], 0, processBuf_small (by simp), by simp⟩
  | cons f fs ih =>
    intro p q hwf hpq
    have hwff := hwf f (by simp)
    have h16f : 16 ≤ f.length := by
      unfold wellFormedFrame at hwff
      split at hwff
      · simp only [Bool.and_eq_true, decide_eq_true_eq] at hwff
        exact hwff.1.2
      · cases hwff
    rw [List.flatten_cons] at hpq
    by_cases hlen : f.length ≤ p.length
    · have htake : p.take f.length = f := by
        have h1 : (p ++ q).take f.length = p.take f.length :=
          List.take_append_of_le_length hlen
        have h2 : (p ++ q).take f.length = f := by
          rw [hpq]
          exact List.take_left f fs.flatten
        rw [← h1, h2]
      have hp' : p = f ++ p.drop f.length := by
        conv_lhs => rw [← List.take_append_drop f.length p]
        rw [htake]
      have hdropq : p.drop f.length ++ q = fs.flatten := by
        have h1 : (p ++ q).drop f.length = p.drop f.length ++ q :=
          List.drop_append_of_le_length hlen
        have h2 : (p ++ q).drop f.length = fs.flatten := by
          rw [hpq]
          exact List.drop_left f fs.flatten
        rw [← h1, h2]
      obtain ⟨e', r, k, hpe, hrq⟩ := ih (p.drop f.length) q
        (fun g hg => hwf g (by simp [hg])) hdropq
      refine ⟨frameEvents f ++ e', r, k + 1, ?_, by simpa using hrq⟩
      conv_lhs => rw [hp']
      rw [processBuf_cons_frame _ hwff, hpe]
      rfl
    · push_neg at hlen
      by_cases h16 : p.length < 16
      · exact ⟨[], p, 0, processBuf_small h16, by rw [hpq]; simp⟩
      · push_neg at h16
        have htake16 : p.take 16 = f.take 16 := by
          have h1 : (p ++ q).take 16 = p.take 16 :=
            List.take_append_of_le_length h16
          have h2 : (p ++ q).take 16 = f.take 16 := by
            rw [hpq]
            exact List.take_append_of_le_length h16f
          rw [← h1, h2]
        obtain ⟨hd, hdec, hlenf⟩ : ∃ hd, MessageHeader.decode f = .ok hd ∧
            hd.length = f.length := by
          unfold wellFormedFrame at hwff
          split at hwff
          · rename_i hd hdecf
            simp only [Bool.and_eq_true, beq_iff_eq] at hwff
            exact ⟨hd, hdecf, hwff.1.1⟩
          · cases hwff
        have hdecp : MessageHeader.decode p = .ok hd := by
          rw [headerDecode_take16 h16, htake16, ← headerDecode_take16 h16f, hdec]
        have hstep : stepOnce p = .needMore := by
          unfold stepOnce
          rw [hdecp]
          simp only
          rw [if_pos (by omega)]
        exact ⟨[], p, 0, processBuf_of_needMore h16 hstep, by rw [hpq]; simp⟩

/-- Feeding a well-formed frame stream in chunks is the same as draining
the whole byte stream at once, for any already-drained residue `a`. -/
theorem runChunks_eq_processBuf (cs : List (List Nat)) :
    ∀ (frames : List (List Nat)) (a : List Nat),
      (∀ f ∈ frames, wellFormedFrame f = true) →
      processBuf a = .ok [] a →
      a ++ cs.flatten = frames.flatten →
      runChunks a cs = processBuf (a ++ cs.flatten) := by
  induction cs with
  | nil =>
    intro frames a hwf hstuck hjoin
    rw [List.flatten_nil, List.append_nil, hstuck]
    rfl
  | cons c cs ih =>
    intro frames a hwf hstuck hjoin
    have hassoc : a ++ (c :: cs).flatten = (a ++ c) ++ cs.flatten := by
      rw [List.flatten_cons, List.append_assoc]
    have hpre : (a ++ c) ++ cs.flatten = frames.flatten := by
      rw [← hassoc, hjoin]
    obtain ⟨e, r, k, hpc, hrq⟩ := processBuf_stream_front frames (a ++ c) cs.flatten
      hwf hpre
    have hstuckr : processBuf r = .ok [] r := processBuf_residue (a ++ c) e r hpc
    have hwfk : ∀ f ∈ frames.drop k, wellFormedFrame f = true :=
      fun f hf => hwf f (List.mem_of_mem_drop hf)
    have hih := ih (frames.drop k) r hwfk hstuckr hrq
    simp only [runChunks]
    rw [hpc]
    simp only
    rw [hih, hassoc, processBuf_append (a ++ c) cs.flatten e r hpc]

/-- C2: feeding the reassembler any chunking of a concatenation of
well-formed frames produces exactly the same outcome (same ordered event
sequence, same final accumulator) as feeding the whole stream at once. -/
theorem reassembler_chunking_invariance (frames chunks : List (List Nat))
    (hwf : ∀ f ∈ frames, wellFormedFrame f = true)
    (hjoin : chunks.flatten = frames.flatten) :
    runChunks [] chunks = runChunks [] [frames.flatten] := by
  have hstuck : processBuf ([] : List Nat) = .ok [] [] :=
    processBuf_small (by simp)
  have h1 : runChunks [] chunks = processBuf ([] ++ chunks.flatten) :=
    runChunks_eq_processBuf chunks frames [] hwf hstuck (by simpa using hjoin)
  have h2 : runChunks [] [frames.flatten]
      = processBuf ([] ++ [frames.flatten].flatten) :=
    runChunks_eq_processBuf [frames.flatten] frames [] hwf hstuck (by simp)
  rw [h1, h2]
  congr 1
  simp [hjoin]

/-- C2 witness: a single 48-byte OrderAck frame fed one byte at a time
decodes identically to the frame fed whole. -/
theorem reassembler_chunking_invariance_witness :
    runChunks []
        (([1, 16, 0, 0, 0, 0, 0, 48, 0, 0, 0, 0, 0, 0, 0, 0]
            ++ List.replicate 32 0).map fun b => [b])
      = runChunks []
        [List.flatten [[1, 16, 0, 0, 0, 0, 0, 48, 0, 0, 0, 0, 0, 0, 0, 0]
            ++ List.replicate 32 0]] :=
  reassembler_chunking_invariance
    [[1, 16, 0, 0, 0, 0, 0, 48, 0, 0, 0, 0, 0, 0, 0, 0] ++ List.replicate 32 0]
    _ (by decide) (by decide)

/-- C5: an accumulator of at least 16 bytes whose kind byte (second byte)
is unrecognized is discarded whole with no frame emitted, and decoding
resumes cleanly on well-formed frame bytes fed afterwards, yielding
exactly those frames' events. -/
theorem reassembler_resync_after_bad_kind (bad : List Nat)
    (frames : List (List Nat)) (h16 : 16 ≤ bad.length)
    (hbadkind : MessageType.tryFrom (bad.getD 1 0) = none)
    (hwf : ∀ f ∈ frames, wellFormedFrame f = true) :
    processBuf bad = .cleared [] ∧
    runChunks [] [bad, frames.flatten]
      = .ok ((frames.map frameEvents).flatten) [] := by
  have hdec : MessageHeader.decode bad = .err .unknownKind := by
    rw [MessageHeader.decode_of_le h16, hbadkind]
  have hstep : stepOnce bad = .cleared := by
    unfold stepOnce
    rw [hdec]
  have hpb : processBuf bad = .cleared [] :=
    processBuf_of_cleared h16 hstep
  refine ⟨hpb, ?_⟩
  have hJ : processBuf frames.flatten
      = .ok ((frames.map frameEvents).flatten) [] := processBuf_flatten frames hwf
  simp only [runChunks, List.nil_append, hpb, hJ]
  simp [prep]

/-- C5 witness: a 16-byte accumulator with kind byte 0x99 is discarded,
and a 48-byte OrderAck frame appended afterwards decodes to its event. -/
theorem reassembler_resync_after_bad_kind_witness :
    processBuf [1, 0x99, 0, 0, 0, 0, 0, 0, 0, 0, 0, 0, 0, 0, 0, 0]
      = .cleared [] ∧
    runChunks [] [[1, 0x99, 0, 0, 0, 0, 0, 0, 0, 0, 0, 0, 0, 0, 0, 0],
        List.flatten [[1, 16, 0, 0, 0, 0, 0, 48, 0, 0, 0, 0, 0, 0, 0, 0]
          ++ List.replicate 32 0]]
      = .ok ((List.map frameEvents
          [[1, 16, 0, 0, 0, 0, 0, 48, 0, 0, 0, 0, 0, 0, 0, 0]
            ++ List.replicate 32 0]).flatten) [] :=
  reassembler_resync_after_bad_kind
    [1, 0x99, 0, 0, 0, 0, 0, 0, 0, 0, 0, 0, 0, 0, 0, 0]
    [[1, 16, 0, 0, 0, 0, 0, 48, 0, 0, 0, 0, 0, 0, 0, 0]
      ++ List.replicate 32 0]
    (by decide) (by decide) (by decide)

/-- C6 counterexample: a 16-byte accumulator whose recognized header
declares length 5 (less than the 16 header bytes) makes the extraction
step panic in `msg_buf.advance(16)` — the step is not total. -/
theorem reassembler_short_declared_length_panics :
    stepOnce [1, 16, 0, 0, 0, 0, 0, 5, 0, 0, 0, 0, 0, 0, 0, 0] = .panic ∧
    processBuf [1, 16, 0, 0, 0, 0, 0, 5, 0, 0, 0, 0, 0, 0, 0, 0]
      = .panic [] := by
  have hs : stepOnce [1, 16, 0, 0, 0, 0, 0, 5, 0, 0, 0, 0, 0, 0, 0, 0]
      = .panic := by decide
  exact ⟨hs, processBuf_of_panic (by decide) hs⟩

/-- C6 amended: when the declared length is at least the 16 header bytes
and at most the available bytes, frame extraction is total: it removes
exactly `length` bytes from the accumulator and strips the leading
16-byte header; for a declared length below 16 it panics instead. -/
theorem frame_extraction_total_above_header (len : Nat) (buf : List Nat)
    (h16 : 16 ≤ len) (hle : len ≤ buf.length) :
    extractFrame len buf = some ((buf.take len).drop 16, buf.drop len) ∧
    (buf.drop len).length = buf.length - len ∧
    (buf.take len).length = len := by
  refine ⟨?_, by simp, by simp; omega⟩
  unfold extractFrame
  rw [if_pos hle]
  simp only [List.length_take]
  rw [if_pos (by omega)]

/-- C6 amended witness: extracting a declared 48-byte frame from a
48-byte accumulator. -/
theorem frame_extraction_total_above_header_witness :
    extractFrame 48 ([1, 16, 0, 0, 0, 0, 0, 48, 0, 0, 0, 0, 0, 0, 0, 0]
        ++ List.replicate 32 0)
      = some ((([1, 16, 0, 0, 0, 0, 0, 48, 0, 0, 0, 0, 0, 0, 0, 0]
          ++ List.replicate 32 0).take 48).drop 16,
        ([1, 16, 0, 0, 0, 0, 0, 48, 0, 0, 0, 0, 0, 0, 0, 0]
          ++ List.replicate 32 0).drop 48) ∧
    (([1, 16, 0, 0, 0, 0, 0, 48, 0, 0, 0, 0, 0, 0, 0, 0]
        ++ List.replicate 32 0).drop 48).length
      = ([1, 16, 0, 0, 0, 0, 0, 48, 0, 0, 0, 0, 0, 0, 0, 0]
          ++ List.replicate 32 0).length - 48 ∧
    (([1, 16, 0, 0, 0, 0, 0, 48, 0, 0, 0, 0, 0, 0, 0, 0]
        ++ List.replicate 32 0).take 48).length = 48 :=
  frame_extraction_total_above_header 48
    ([1, 16, 0, 0, 0, 0, 0, 48, 0, 0, 0, 0, 0, 0, 0, 0]
      ++ List.replicate 32 0) (by decide) (by decide)
